import Mathlib

/-
Shallow embedding of `src/agent.py` (upwork-auto-jobs-applier-using-AI).

The Python class `Agent` keeps a mutable `self.messages` list; here every
operation threads the message list (and overall agent record) explicitly and
returns the new state together with its result.  The remote provider
(`litellm.completion`) is modelled as a script: a list of response messages
consumed one per `_call_llm`; an exhausted script models a failing provider
call.  A response message exposes `content` and a `tool_calls` field that can
succeed with `none` (Python `None`), with a list, or whose very access can
raise (`TCField.err`) — the duck-typed `try: response_message.tool_calls`
pattern in the source.  A registered tool is a function from the serialized
argument payload to `Except Unit String`: `Except.error` models the callable
(or `json.loads`) raising.
-/

namespace AgentSpec

/-- A tool invocation request produced by the provider: identifier, tool name,
serialized argument payload (`tool_call.id`, `tool_call.function.name`,
`tool_call.function.arguments` in the source). -/
structure ToolCall where
  id : String
  name : String
  arguments : String
deriving DecidableEq

/-- The `tool_calls` field of a provider response message: either the access
succeeds and yields `none` or a list, or the attribute access itself raises. -/
inductive TCField
  | ok (tcs : Option (List ToolCall))
  | err
deriving DecidableEq

/-- A provider response message (`response.choices[0].message`). -/
structure RespMessage where
  content : String
  tcField : TCField
deriving DecidableEq

/-- One entry of `self.messages`.  `assistantMsg` is an appended provider
response object; `assistantText` is the plain dict
`{"role": "assistant", "content": result}` appended by `invoke`;
`toolResult` is the dict appended per executed tool call. -/
inductive Turn
  | system (content : String)
  | user (content : String)
  | assistantMsg (rm : RespMessage)
  | assistantText (content : String)
  | toolResult (tool_call_id : String) (name : String) (content : String)
deriving DecidableEq

/-- The argument record of one `completion(...)` call in `_call_llm`:
model, full message list, the optional `tools` keyword (omitted when the
schema list is falsy) and the sampling temperature. -/
structure ProviderRequest where
  model : String
  messages : List Turn
  tools : Option (List String)
  temperature : ℚ
deriving DecidableEq

/-- The `Agent` object: configuration fields plus the mutable `messages`. -/
structure Agent where
  name : String
  model : String
  tools : List String
  available_tools : List (String × (String → Except Unit String))
  system_prompt : String
  messages : List Turn

/-- The seed of the session state: the single system turn when a system prompt
is configured (Python truthiness: nonempty string), else empty. -/
def seedMessages (system_prompt : String) : List Turn :=
  if system_prompt = "" then [] else [Turn.system system_prompt]

/-- Python `Agent.__init__`: store the configuration and seed `self.messages`. -/
def mkAgent (name model : String) (tools : List String)
    (available_tools : List (String × (String → Except Unit String)))
    (system_prompt : String) : Agent :=
  { name := name, model := model, tools := tools,
    available_tools := available_tools, system_prompt := system_prompt,
    messages := seedMessages system_prompt }

/-- Python `Agent.reset`: clear `self.messages` and reseed the system turn. -/
def Agent.reset (a : Agent) : Agent :=
  { a with messages := seedMessages a.system_prompt }

/-- Dictionary lookup `self.available_tools[function_name]`;
`none` models the `KeyError`. -/
def lookupTool (reg : List (String × (String → Except Unit String)))
    (n : String) : Option (String → Except Unit String) :=
  match reg with
  | [] => none
  | (k, f) :: rest => if k = n then some f else lookupTool rest n

/-- Exceptions that can be raised inside the dispatch loop. -/
inductive Err
  | toolLookup (name : String)
  | toolRaised (name : String)
  | providerUnavailable
deriving DecidableEq

instance {ε α : Type} [DecidableEq ε] [DecidableEq α] :
    DecidableEq (Except ε α) := fun x y =>
  match x, y with
  | Except.ok a, Except.ok b =>
    if h : a = b then Decidable.isTrue (by rw [h])
    else Decidable.isFalse (by simp [h])
  | Except.error a, Except.error b =>
    if h : a = b then Decidable.isTrue (by rw [h])
    else Decidable.isFalse (by simp [h])
  | Except.ok _, Except.error _ => Decidable.isFalse (by simp)
  | Except.error _, Except.ok _ => Decidable.isFalse (by simp)

/-- One `completion(...)` call: builds the argument record from the current
message list and the configuration. -/
def mkRequest (a : Agent) (msgs : List Turn) : ProviderRequest :=
  { model := a.model
    messages := msgs
    tools := if a.tools.isEmpty then none else some a.tools
    temperature := 1/10 }

/-- The `for tool_call in tool_calls` loop of `_run_tools`: returns the
tool-result turns appended (in order) and, when a lookup fails or a callable
raises, the exception — the turns appended before the raise are kept, as the
Python appends happen per iteration. -/
def runToolLoop (reg : List (String × (String → Except Unit String))) :
    List ToolCall → List Turn × Option Err
  | [] => ([], none)
  | tc :: rest =>
    match lookupTool reg tc.name with
    | none => ([], some (Err.toolLookup tc.name))
    | some f =>
      match f tc.arguments with
      | Except.error _ => ([], some (Err.toolRaised tc.name))
      | Except.ok out =>
        let r := runToolLoop reg rest
        (Turn.toolResult tc.id tc.name out :: r.1, r.2)

/-- Output of `_run_tools` / `execute`, with the provider requests emitted and
the script left over.  For `_run_tools` the result is the returned response
message (of the returned `response`); an `Except.error` models the call
raising. -/
structure StepOut (α : Type) where
  messages : List Turn
  requests : List ProviderRequest
  script : List RespMessage
  result : Except Err α

/-- Python `Agent._run_tools(tool_calls)`: run every requested tool, appending one
tool-result turn each; call the provider again and append its message; if that
message again requests tools, recurse, catching any exception from the
recursive call (the bare `except Exception: pass`) and returning this round's
response instead.  A raise inside the tool loop or a failing provider call
propagates to the caller. -/
def runTools (a : Agent) (msgs : List Turn) (script : List RespMessage)
    (tcs : List ToolCall) : StepOut RespMessage :=
  let r := runToolLoop a.available_tools tcs
  let msgs1 := msgs ++ r.1
  match r.2 with
  | some e => ⟨msgs1, [], script, Except.error e⟩
  | none =>
    let req := mkRequest a msgs1
    match script with
    | [] => ⟨msgs1, [req], [], Except.error Err.providerUnavailable⟩
    | rm :: rest =>
      let msgs2 := msgs1 ++ [Turn.assistantMsg rm]
      match rm.tcField with
      | TCField.err => ⟨msgs2, [req], rest, Except.ok rm⟩
      | TCField.ok none => ⟨msgs2, [req], rest, Except.ok rm⟩
      | TCField.ok (some []) => ⟨msgs2, [req], rest, Except.ok rm⟩
      | TCField.ok (some (t :: ts)) =>
        let o := runTools a msgs2 rest (t :: ts)
        match o.result with
        | Except.ok rm2 => ⟨o.messages, req :: o.requests, o.script, Except.ok rm2⟩
        | Except.error _ => ⟨o.messages, req :: o.requests, o.script, Except.ok rm⟩

/-- Python `Agent.execute`: call the provider once, append its message; inside the
`try`, read `tool_calls` and, when truthy, run `_run_tools`; the bare
`except Exception` turns an access failure or any exception out of
`_run_tools` into returning the first response's content.  The only exception
that escapes `execute` is a failure of the initial provider call itself. -/
def execute (a : Agent) (script : List RespMessage) : StepOut String :=
  let req := mkRequest a a.messages
  match script with
  | [] => ⟨a.messages, [req], [], Except.error Err.providerUnavailable⟩
  | rm :: rest =>
    let msgs1 := a.messages ++ [Turn.assistantMsg rm]
    match rm.tcField with
    | TCField.err => ⟨msgs1, [req], rest, Except.ok rm.content⟩
    | TCField.ok none => ⟨msgs1, [req], rest, Except.ok rm.content⟩
    | TCField.ok (some []) => ⟨msgs1, [req], rest, Except.ok rm.content⟩
    | TCField.ok (some (t :: ts)) =>
      let o := runTools a msgs1 rest (t :: ts)
      match o.result with
      | Except.ok rm2 => ⟨o.messages, req :: o.requests, o.script, Except.ok rm2.content⟩
      | Except.error _ => ⟨o.messages, req :: o.requests, o.script, Except.ok rm.content⟩

/-- Result of one `invoke` call.  `preReset` is the message list right before
the final `reset()` (defined only when `invoke` completes), `postExec` the
message list right after `execute` returned or raised. -/
structure InvokeOut where
  final : Agent
  requests : List ProviderRequest
  preReset : Option (List Turn)
  postExec : List Turn
  result : Except Err String

/-- Python `Agent.invoke(message)`: append the user turn, run `execute`, append the
result as a plain assistant turn, reset, and return the result.  An exception
out of `execute` skips the assistant append and the reset. -/
def Agent.invoke (a : Agent) (script : List RespMessage) (message : String) :
    InvokeOut :=
  let a1 : Agent := { a with messages := a.messages ++ [Turn.user message] }
  let e := execute a1 script
  match e.result with
  | Except.error er =>
      ⟨{ a with messages := e.messages }, e.requests, none, e.messages,
        Except.error er⟩
  | Except.ok content =>
      let pre := e.messages ++ [Turn.assistantText content]
      ⟨Agent.reset { a with messages := pre }, e.requests, some pre, e.messages,
        Except.ok content⟩

/-- A sequence of top-level `invoke` calls on one long-lived agent: each entry
supplies the provider script and the user message of that call; the resulting
list pairs the agent state after each call with that call's result. -/
def runCalls (a : Agent) :
    List (List RespMessage × String) → List (Agent × Except Err String)
  | [] => []
  | (s, m) :: rest =>
    let o := a.invoke s m
    (o.final, o.result) :: runCalls o.final rest

/-- A public operation on an agent, for the frame property. -/
inductive Op
  | invokeOp (script : List RespMessage) (message : String)
  | executeOp (script : List RespMessage)
  | resetOp

/-- Perform one public operation, keeping the mutated agent state
(a standalone `execute` call mutates `self.messages` by its appends). -/
def applyOp (a : Agent) : Op → Agent
  | Op.invokeOp script msg => (a.invoke script msg).final
  | Op.executeOp script => { a with messages := (execute a script).messages }
  | Op.resetOp => a.reset

/-- Perform a sequence of public operations. -/
def runOps (a : Agent) : List Op → Agent
  | [] => a
  | op :: rest => runOps (applyOp a op) rest

/-- The content of the last provider response message appended to a message
list, if any. -/
def lastRespContent : List Turn → Option String
  | [] => none
  | t :: rest =>
    match lastRespContent rest with
    | some s => some s
    | none =>
      match t with
      | Turn.assistantMsg rm => some rm.content
      | _ => none

/-! ### Helper lemmas -/

theorem lastRespContent_append_none {ys : List Turn}
    (h : lastRespContent ys = none) (xs : List Turn) :
    lastRespContent (xs ++ ys) = lastRespContent xs := by
  induction xs with
  | nil => simpa [lastRespContent]
  | cons t xs ih => simp [lastRespContent, ih]

theorem lastRespContent_append_some {ys : List Turn} {s : String}
    (h : lastRespContent ys = some s) (xs : List Turn) :
    lastRespContent (xs ++ ys) = some s := by
  induction xs with
  | nil => simpa [lastRespContent]
  | cons t xs ih => simp [lastRespContent, ih]

theorem lastRespContent_snoc_assistantMsg (xs : List Turn) (rm : RespMessage) :
    lastRespContent (xs ++ [Turn.assistantMsg rm]) = some rm.content :=
  lastRespContent_append_some (by simp [lastRespContent]) xs

/-- The tool loop appends only tool-result turns, so it never contributes a
provider response content. -/
theorem lastRespContent_runToolLoop
    (reg : List (String × (String → Except Unit String))) (tcs : List ToolCall) :
    lastRespContent (runToolLoop reg tcs).1 = none := by
  induction tcs with
  | nil => simp [runToolLoop, lastRespContent]
  | cons tc rest ih =>
    simp only [runToolLoop]
    cases hl : lookupTool reg tc.name with
    | none => simp [lastRespContent, hl]
    | some f =>
      cases hf : f tc.arguments with
      | error e => simp [lastRespContent, hl, hf]
      | ok out => simp [lastRespContent, hl, hf, ih]

/-- A successful tool loop produces one tool-result turn per request, in
order, each tagged with the request identifier and tool name. -/
theorem runToolLoop_ok_spec
    (reg : List (String × (String → Except Unit String))) :
    ∀ tcs : List ToolCall, (runToolLoop reg tcs).2 = none →
    ∃ outs : List String, outs.length = tcs.length ∧
      (runToolLoop reg tcs).1 =
        List.zipWith (fun tc out => Turn.toolResult tc.id tc.name out) tcs outs := by
  intro tcs
  induction tcs with
  | nil => intro _; exact ⟨[], rfl, rfl⟩
  | cons tc rest ih =>
    intro h
    simp only [runToolLoop] at h ⊢
    cases hl : lookupTool reg tc.name with
    | none => simp [hl] at h
    | some f =>
      simp only [hl] at h ⊢
      cases hf : f tc.arguments with
      | error e => simp [hf] at h
      | ok out =>
        simp only [hf] at h ⊢
        obtain ⟨outs, hlen, hturns⟩ := ih h
        exact ⟨out :: outs, by simp [hlen], by simp [hturns]⟩

/-- The function `_run_tools` only appends to the message list. -/
theorem runTools_messages_mono (a : Agent) :
    ∀ (script : List RespMessage) (msgs : List Turn) (tcs : List ToolCall),
    msgs <+: (runTools a msgs script tcs).messages := by
  intro script
  induction script with
  | nil =>
    intro msgs tcs
    rw [runTools.eq_def]
    cases h2 : (runToolLoop a.available_tools tcs).2 with
    | none => simp [h2, List.prefix_append]
    | some e => simp [h2, List.prefix_append]
  | cons rm rest ih =>
    intro msgs tcs
    rw [runTools.eq_def]
    cases h2 : (runToolLoop a.available_tools tcs).2 with
    | some e => simp [h2, List.prefix_append]
    | none =>
      simp only [h2]
      cases htc : rm.tcField with
      | err => simp [htc, List.append_assoc, List.prefix_append]
      | ok otcs =>
        cases otcs with
        | none => simp [htc, List.append_assoc, List.prefix_append]
        | some tcs2 =>
          cases tcs2 with
          | nil => simp [htc, List.append_assoc, List.prefix_append]
          | cons t ts =>
            simp only [htc]
            cases hres :
                (runTools a ((msgs ++ (runToolLoop a.available_tools tcs).1) ++
                  [Turn.assistantMsg rm]) rest (t :: ts)).result with
            | ok rm2 =>
              simp only [hres]
              refine List.IsPrefix.trans ?_ (ih _ _)
              simp [List.append_assoc, List.prefix_append]
            | error e =>
              simp only [hres]
              refine List.IsPrefix.trans ?_ (ih _ _)
              simp [List.append_assoc, List.prefix_append]

/-- The message list returned by `_run_tools` ends, response-wise, with the
returned response when the call returns, and adds no response at all when it
raises. -/
theorem runTools_lastRespContent (a : Agent) :
    ∀ (script : List RespMessage) (msgs : List Turn) (tcs : List ToolCall),
    (∀ rm2, (runTools a msgs script tcs).result = Except.ok rm2 →
       lastRespContent (runTools a msgs script tcs).messages = some rm2.content) ∧
    (∀ e, (runTools a msgs script tcs).result = Except.error e →
       lastRespContent (runTools a msgs script tcs).messages = lastRespContent msgs) := by
  intro script
  induction script with
  | nil =>
    intro msgs tcs
    rw [runTools.eq_def]
    cases h2 : (runToolLoop a.available_tools tcs).2 with
    | none =>
      simp only [h2]
      exact ⟨fun rm2 h => by simp at h,
        fun e _ => lastRespContent_append_none (lastRespContent_runToolLoop _ _) _⟩
    | some e =>
      simp only [h2]
      exact ⟨fun rm2 h => by simp at h,
        fun e _ => lastRespContent_append_none (lastRespContent_runToolLoop _ _) _⟩
  | cons rm rest ih =>
    intro msgs tcs
    rw [runTools.eq_def]
    cases h2 : (runToolLoop a.available_tools tcs).2 with
    | some e =>
      simp only [h2]
      exact ⟨fun rm2 h => by simp at h,
        fun e _ => lastRespContent_append_none (lastRespContent_runToolLoop _ _) _⟩
    | none =>
      simp only [h2]
      cases htc : rm.tcField with
      | err =>
        simp only [htc]
        exact ⟨fun rm2 h => by
            simp only [Except.ok.injEq] at h
            subst h
            exact lastRespContent_snoc_assistantMsg _ _,
          fun e h => by simp at h⟩
      | ok otcs =>
        cases otcs with
        | none =>
          simp only [htc]
          exact ⟨fun rm2 h => by
              simp only [Except.ok.injEq] at h
              subst h
              exact lastRespContent_snoc_assistantMsg _ _,
            fun e h => by simp at h⟩
        | some tcs2 =>
          cases tcs2 with
          | nil =>
            simp only [htc]
            exact ⟨fun rm2 h => by
                simp only [Except.ok.injEq] at h
                subst h
                exact lastRespContent_snoc_assistantMsg _ _,
              fun e h => by simp at h⟩
          | cons t ts =>
            simp only [htc]
            cases hres :
                (runTools a ((msgs ++ (runToolLoop a.available_tools tcs).1) ++
                  [Turn.assistantMsg rm]) rest (t :: ts)).result with
            | ok rm2 =>
              simp only [hres]
              exact ⟨fun rm3 h => by
                  simp only [Except.ok.injEq] at h
                  subst h
                  exact (ih _ _).1 _ hres,
                fun e h => by simp at h⟩
            | error e =>
              simp only [hres]
              refine ⟨fun rm3 h => ?_, fun e h => by simp at h⟩
              simp only [Except.ok.injEq] at h
              subst h
              rw [(ih _ _).2 _ hres]
              exact lastRespContent_snoc_assistantMsg _ _

/-- Every provider request emitted inside `_run_tools` carries the configured
model, a temperature of 1/10, the tool schema exactly when it is nonempty, and
a message list that is a prefix of the final message list (the session state
as of that call; later steps only append). -/
theorem runTools_requests_spec (a : Agent) :
    ∀ (script : List RespMessage) (msgs : List Turn) (tcs : List ToolCall),
    ∀ req ∈ (runTools a msgs script tcs).requests,
      req.model = a.model ∧ req.temperature = 1/10 ∧
      req.tools = (if a.tools.isEmpty then none else some a.tools) ∧
      req.messages <+: (runTools a msgs script tcs).messages := by
  intro script
  induction script with
  | nil =>
    intro msgs tcs req hreq
    rw [runTools.eq_def] at hreq ⊢
    cases h2 : (runToolLoop a.available_tools tcs).2 with
    | some e => simp [h2] at hreq
    | none =>
      simp only [h2] at hreq ⊢
      simp only [List.mem_singleton] at hreq
      subst hreq
      exact ⟨rfl, rfl, rfl, List.prefix_rfl⟩
  | cons rm rest ih =>
    intro msgs tcs req hreq
    rw [runTools.eq_def] at hreq ⊢
    cases h2 : (runToolLoop a.available_tools tcs).2 with
    | some e => simp [h2] at hreq
    | none =>
      simp only [h2] at hreq ⊢
      cases htc : rm.tcField with
      | err =>
        simp only [htc, List.mem_singleton] at hreq
        subst hreq
        exact ⟨rfl, rfl, rfl, by simp [mkRequest, List.prefix_append]⟩
      | ok otcs =>
        cases otcs with
        | none =>
          simp only [htc, List.mem_singleton] at hreq
          subst hreq
          exact ⟨rfl, rfl, rfl, by simp [mkRequest, List.prefix_append]⟩
        | some tcs2 =>
          cases tcs2 with
          | nil =>
            simp only [htc, List.mem_singleton] at hreq
            subst hreq
            exact ⟨rfl, rfl, rfl, by simp [mkRequest, List.prefix_append]⟩
          | cons t ts =>
            simp only [htc] at hreq ⊢
            cases hres :
                (runTools a ((msgs ++ (runToolLoop a.available_tools tcs).1) ++
                  [Turn.assistantMsg rm]) rest (t :: ts)).result with
            | ok rm2 =>
              simp only [hres, List.mem_cons] at hreq ⊢
              rcases hreq with hreq | hreq
              · subst hreq
                refine ⟨rfl, rfl, rfl, ?_⟩
                refine List.IsPrefix.trans ?_ (runTools_messages_mono a rest _ _)
                simp [mkRequest, List.prefix_append]
              · exact ih _ _ req hreq
            | error e =>
              simp only [hres, List.mem_cons] at hreq ⊢
              rcases hreq with hreq | hreq
              · subst hreq
                refine ⟨rfl, rfl, rfl, ?_⟩
                refine List.IsPrefix.trans ?_ (runTools_messages_mono a rest _ _)
                simp [mkRequest, List.prefix_append]
              · exact ih _ _ req hreq

/-- After a fully successful tool loop, the very next provider call sends the
previous messages extended by exactly the loop's tool-result turns. -/
theorem runTools_requests_head (a : Agent) (msgs : List Turn)
    (script : List RespMessage) (tcs : List ToolCall)
    (h : (runToolLoop a.available_tools tcs).2 = none) :
    (runTools a msgs script tcs).requests.head? =
      some (mkRequest a (msgs ++ (runToolLoop a.available_tools tcs).1)) := by
  rw [runTools.eq_def]
  simp only [h]
  cases script with
  | nil => rfl
  | cons rm rest =>
    cases htc : rm.tcField with
    | err => simp [htc]
    | ok otcs =>
      cases otcs with
      | none => simp [htc]
      | some tcs2 =>
        cases tcs2 with
        | nil => simp [htc]
        | cons t ts =>
          simp only [htc]
          cases hres :
              (runTools a ((msgs ++ (runToolLoop a.available_tools tcs).1) ++
                [Turn.assistantMsg rm]) rest (t :: ts)).result with
          | ok rm2 => simp [hres]
          | error e => simp [hres]

/-- A raise inside the tool loop makes `_run_tools` raise that exception. -/
theorem runTools_loop_error (a : Agent) (msgs : List Turn)
    (script : List RespMessage) (tcs : List ToolCall) (e : Err)
    (h : (runToolLoop a.available_tools tcs).2 = some e) :
    (runTools a msgs script tcs).result = Except.error e := by
  rw [runTools.eq_def]
  simp [h]

/-- When `execute` returns, the returned string is the content of the last
provider response message in the session state. -/
theorem execute_ok_lastRespContent (a : Agent) (script : List RespMessage)
    (s : String) (h : (execute a script).result = Except.ok s) :
    lastRespContent (execute a script).messages = some s := by
  cases script with
  | nil => simp [execute] at h
  | cons rm rest =>
    simp only [execute] at h ⊢
    cases htc : rm.tcField with
    | err =>
      simp only [htc] at h ⊢
      simp only [Except.ok.injEq] at h
      subst h
      exact lastRespContent_snoc_assistantMsg _ _
    | ok otcs =>
      cases otcs with
      | none =>
        simp only [htc] at h ⊢
        simp only [Except.ok.injEq] at h
        subst h
        exact lastRespContent_snoc_assistantMsg _ _
      | some tcs2 =>
        cases tcs2 with
        | nil =>
          simp only [htc] at h ⊢
          simp only [Except.ok.injEq] at h
          subst h
          exact lastRespContent_snoc_assistantMsg _ _
        | cons t ts =>
          simp only [htc] at h ⊢
          cases hres :
              (runTools a (a.messages ++ [Turn.assistantMsg rm]) rest
                (t :: ts)).result with
          | ok rm2 =>
            simp only [hres] at h ⊢
            simp only [Except.ok.injEq] at h
            subst h
            exact (runTools_lastRespContent a rest _ _).1 _ hres
          | error e =>
            simp only [hres] at h ⊢
            simp only [Except.ok.injEq] at h
            subst h
            rw [(runTools_lastRespContent a rest _ _).2 _ hres]
            exact lastRespContent_snoc_assistantMsg _ _

/-- The only exception that escapes `execute` is a failure of its initial
provider call (every exception arising later is swallowed by a bare
`except Exception`). -/
theorem execute_error_empty (a : Agent) (script : List RespMessage) (e : Err)
    (h : (execute a script).result = Except.error e) :
    script = [] ∧ e = Err.providerUnavailable := by
  cases script with
  | nil =>
    simp only [execute] at h
    simp only [Except.error.injEq] at h
    exact ⟨rfl, h.symm⟩
  | cons rm rest =>
    simp only [execute] at h
    cases htc : rm.tcField with
    | err => simp [htc] at h
    | ok otcs =>
      cases otcs with
      | none => simp [htc] at h
      | some tcs2 =>
        cases tcs2 with
        | nil => simp [htc] at h
        | cons t ts =>
          simp only [htc] at h
          cases hres :
              (runTools a (a.messages ++ [Turn.assistantMsg rm]) rest
                (t :: ts)).result with
          | ok rm2 => simp [hres] at h
          | error e2 => simp [hres] at h

theorem execute_nil (a : Agent) :
    execute a [] =
      ⟨a.messages, [mkRequest a a.messages], [],
        Except.error Err.providerUnavailable⟩ := rfl

/-- The first provider call of `execute` sends exactly the current session
state. -/
theorem execute_requests_head (a : Agent) (script : List RespMessage) :
    (execute a script).requests.head? = some (mkRequest a a.messages) := by
  cases script with
  | nil => rfl
  | cons rm rest =>
    simp only [execute]
    cases htc : rm.tcField with
    | err => simp [htc]
    | ok otcs =>
      cases otcs with
      | none => simp [htc]
      | some tcs2 =>
        cases tcs2 with
        | nil => simp [htc]
        | cons t ts =>
          simp only [htc]
          cases hres :
              (runTools a (a.messages ++ [Turn.assistantMsg rm]) rest
                (t :: ts)).result with
          | ok rm2 => simp [hres]
          | error e2 => simp [hres]

/-- Every provider request of one `execute` run carries the configured model,
temperature 1/10, the schema exactly when nonempty, and a prefix of the final
session state as its message list. -/
theorem execute_requests_spec (a : Agent) (script : List RespMessage) :
    ∀ req ∈ (execute a script).requests,
      req.model = a.model ∧ req.temperature = 1/10 ∧
      req.tools = (if a.tools.isEmpty then none else some a.tools) ∧
      req.messages <+: (execute a script).messages := by
  intro req hreq
  cases script with
  | nil =>
    simp only [execute, List.mem_singleton] at hreq
    subst hreq
    exact ⟨rfl, rfl, rfl, List.prefix_rfl⟩
  | cons rm rest =>
    simp only [execute] at hreq ⊢
    cases htc : rm.tcField with
    | err =>
      simp only [htc, List.mem_singleton] at hreq
      subst hreq
      exact ⟨rfl, rfl, rfl, by simp [mkRequest, List.prefix_append]⟩
    | ok otcs =>
      cases otcs with
      | none =>
        simp only [htc, List.mem_singleton] at hreq
        subst hreq
        exact ⟨rfl, rfl, rfl, by simp [mkRequest, List.prefix_append]⟩
      | some tcs2 =>
        cases tcs2 with
        | nil =>
          simp only [htc, List.mem_singleton] at hreq
          subst hreq
          exact ⟨rfl, rfl, rfl, by simp [mkRequest, List.prefix_append]⟩
        | cons t ts =>
          simp only [htc] at hreq ⊢
          cases hres :
              (runTools a (a.messages ++ [Turn.assistantMsg rm]) rest
                (t :: ts)).result with
          | ok rm2 =>
            simp only [hres, List.mem_cons] at hreq ⊢
            rcases hreq with hreq | hreq
            · subst hreq
              refine ⟨rfl, rfl, rfl, ?_⟩
              refine List.IsPrefix.trans ?_ (runTools_messages_mono a rest _ _)
              simp [mkRequest, List.prefix_append]
            · exact runTools_requests_spec a rest _ _ req hreq
          | error e2 =>
            simp only [hres, List.mem_cons] at hreq ⊢
            rcases hreq with hreq | hreq
            · subst hreq
              refine ⟨rfl, rfl, rfl, ?_⟩
              refine List.IsPrefix.trans ?_ (runTools_messages_mono a rest _ _)
              simp [mkRequest, List.prefix_append]
            · exact runTools_requests_spec a rest _ _ req hreq

/-- The value returned by `_run_tools` depends only on the registry and the
provider script, never on the accumulated message list. -/
theorem runTools_result_indep (a a' : Agent)
    (hreg : a.available_tools = a'.available_tools) :
    ∀ (script : List RespMessage) (msgs msgs' : List Turn)
      (tcs : List ToolCall),
    (runTools a msgs script tcs).result = (runTools a' msgs' script tcs).result := by
  intro script
  induction script with
  | nil =>
    intro msgs msgs' tcs
    rw [runTools.eq_def, runTools.eq_def, ← hreg]
    cases h2 : (runToolLoop a.available_tools tcs).2 with
    | none => simp [h2]
    | some e => simp [h2]
  | cons rm rest ih =>
    intro msgs msgs' tcs
    rw [runTools.eq_def, runTools.eq_def, ← hreg]
    cases h2 : (runToolLoop a.available_tools tcs).2 with
    | some e => simp [h2]
    | none =>
      simp only [h2]
      cases htc : rm.tcField with
      | err => simp [htc]
      | ok otcs =>
        cases otcs with
        | none => simp [htc]
        | some tcs2 =>
          cases tcs2 with
          | nil => simp [htc]
          | cons t ts =>
            simp only [htc]
            have hr := ih ((msgs ++ (runToolLoop a.available_tools tcs).1) ++
                [Turn.assistantMsg rm])
              ((msgs' ++ (runToolLoop a.available_tools tcs).1) ++
                [Turn.assistantMsg rm]) (t :: ts)
            cases hres :
                (runTools a ((msgs ++ (runToolLoop a.available_tools tcs).1) ++
                  [Turn.assistantMsg rm]) rest (t :: ts)).result with
            | ok rm2 =>
              rw [hres] at hr
              simp only [hres, ← hr]
            | error e =>
              rw [hres] at hr
              simp only [hres, ← hr]

/-- The value returned by `execute` does not depend on the session state. -/
theorem execute_result_indep (a : Agent) (script : List RespMessage)
    (msgs msgs' : List Turn) :
    (execute { a with messages := msgs } script).result =
      (execute { a with messages := msgs' } script).result := by
  cases script with
  | nil => rfl
  | cons rm rest =>
    simp only [execute]
    cases htc : rm.tcField with
    | err => simp [htc]
    | ok otcs =>
      cases otcs with
      | none => simp [htc]
      | some tcs2 =>
        cases tcs2 with
        | nil => simp [htc]
        | cons t ts =>
          simp only [htc]
          have hr := runTools_result_indep { a with messages := msgs }
            { a with messages := msgs' } rfl rest
            (msgs ++ [Turn.assistantMsg rm]) (msgs' ++ [Turn.assistantMsg rm])
            (t :: ts)
          cases hres :
              (runTools { a with messages := msgs }
                (msgs ++ [Turn.assistantMsg rm]) rest (t :: ts)).result with
          | ok rm2 =>
            rw [hres] at hr
            simp only [hres, ← hr]
          | error e =>
            rw [hres] at hr
            simp only [hres, ← hr]

/-- The method `invoke` hands back exactly what `execute` returned (on the state with the
user turn appended). -/
theorem invoke_result_eq (a : Agent) (script : List RespMessage)
    (msg : String) :
    (a.invoke script msg).result =
      (execute { a with messages := a.messages ++ [Turn.user msg] }
        script).result := by
  simp only [Agent.invoke]
  cases h : (execute { a with messages := a.messages ++ [Turn.user msg] }
      script).result with
  | ok s => simp [h]
  | error e => simp [h]

/-- The field `postExec` is the message state `execute` left behind. -/
theorem invoke_postExec_eq (a : Agent) (script : List RespMessage)
    (msg : String) :
    (a.invoke script msg).postExec =
      (execute { a with messages := a.messages ++ [Turn.user msg] }
        script).messages := by
  simp only [Agent.invoke]
  cases h : (execute { a with messages := a.messages ++ [Turn.user msg] }
      script).result with
  | ok s => simp [h]
  | error e => simp [h]

/-- The `requests` of an `invoke` run are those of its `execute` run. -/
theorem invoke_requests_eq (a : Agent) (script : List RespMessage)
    (msg : String) :
    (a.invoke script msg).requests =
      (execute { a with messages := a.messages ++ [Turn.user msg] }
        script).requests := by
  simp only [Agent.invoke]
  cases h : (execute { a with messages := a.messages ++ [Turn.user msg] }
      script).result with
  | ok s => simp [h]
  | error e => simp [h]

/-- The method `invoke` never touches the configuration fields. -/
theorem invoke_config (a : Agent) (script : List RespMessage) (msg : String) :
    (a.invoke script msg).final.name = a.name ∧
    (a.invoke script msg).final.model = a.model ∧
    (a.invoke script msg).final.tools = a.tools ∧
    (a.invoke script msg).final.available_tools = a.available_tools ∧
    (a.invoke script msg).final.system_prompt = a.system_prompt := by
  simp only [Agent.invoke]
  cases h : (execute { a with messages := a.messages ++ [Turn.user msg] }
      script).result with
  | ok s => simp [h, Agent.reset]
  | error e => simp [h]

/-- A completed `invoke` leaves the session state reset to its seed. -/
theorem invoke_ok_final_messages (a : Agent) (script : List RespMessage)
    (msg : String) (s : String)
    (h : (a.invoke script msg).result = Except.ok s) :
    (a.invoke script msg).final.messages = seedMessages a.system_prompt := by
  rw [invoke_result_eq] at h
  simp only [Agent.invoke, h, Agent.reset]

/-- A completed `invoke` records, as `preReset`, the post-`execute` state with
the extra plain assistant turn appended. -/
theorem invoke_ok_preReset (a : Agent) (script : List RespMessage)
    (msg : String) (s : String)
    (h : (a.invoke script msg).result = Except.ok s) :
    (a.invoke script msg).preReset =
      some ((a.invoke script msg).postExec ++ [Turn.assistantText s]) := by
  rw [invoke_result_eq] at h
  simp only [Agent.invoke, h]

/-- No public operation touches the configuration fields. -/
theorem applyOp_config (a : Agent) (op : Op) :
    (applyOp a op).name = a.name ∧ (applyOp a op).model = a.model ∧
    (applyOp a op).tools = a.tools ∧
    (applyOp a op).available_tools = a.available_tools ∧
    (applyOp a op).system_prompt = a.system_prompt := by
  cases op with
  | invokeOp script msg => exact invoke_config a script msg
  | executeOp script => exact ⟨rfl, rfl, rfl, rfl, rfl⟩
  | resetOp => exact ⟨rfl, rfl, rfl, rfl, rfl⟩

/-! ### Concrete fixtures -/

/-- A concrete agent with two registered tools, a declared schema and a system
prompt. -/
def exAgent : Agent :=
  mkAgent "a" "m" ["schema"]
    [("add", fun _ => Except.ok "3"), ("mul", fun _ => Except.ok "6")] "sys"

/-- A response requesting the two registered tools. -/
def exR1 : RespMessage :=
  ⟨"thinking", TCField.ok (some [⟨"1", "add", "x"⟩, ⟨"2", "mul", "y"⟩])⟩

/-- A response with no tool requests. -/
def exR2 : RespMessage := ⟨"done", TCField.ok none⟩

/-- A response whose tool-invocation field raises on access, with empty
content. -/
def exRErr : RespMessage := ⟨"", TCField.err⟩

/-- A concrete agent with an empty tool registry and no system prompt. -/
def cexAgent : Agent := mkAgent "a" "m" [] [] ""

/-- A one-response script requesting a tool absent from the registry. -/
def cexScript : List RespMessage :=
  [⟨"halfway", TCField.ok (some [⟨"id1", "missing", "x"⟩])⟩]

/-- The two tool requests carried by `exR1`. -/
def exTCs : List ToolCall := [⟨"1", "add", "x"⟩, ⟨"2", "mul", "y"⟩]

/-! ### Claim theorems -/

/-- Claim C7: `reset()` sets the session state to exactly the single system
turn when a system prompt was configured, else to the empty sequence, and
`reset` is idempotent: resetting twice equals resetting once. -/
theorem C7_reset_seed_idempotent (a : Agent) :
    a.reset.messages = seedMessages a.system_prompt ∧
    a.reset.messages =
      (if a.system_prompt = "" then []
       else [Turn.system a.system_prompt]) ∧
    a.reset.reset = a.reset :=
  ⟨rfl, rfl, rfl⟩

/-- Claim C8: for every sequence of public operations (`invoke`, `execute`,
`reset`), the configuration fields `name`, `model`, `system_prompt`, `tools`
and `available_tools` are left unchanged; only `messages` is ever mutated. -/
theorem C8_config_frame (a : Agent) (ops : List Op) :
    (runOps a ops).name = a.name ∧ (runOps a ops).model = a.model ∧
    (runOps a ops).tools = a.tools ∧
    (runOps a ops).available_tools = a.available_tools ∧
    (runOps a ops).system_prompt = a.system_prompt := by
  induction ops generalizing a with
  | nil => exact ⟨rfl, rfl, rfl, rfl, rfl⟩
  | cons op rest ih =>
    obtain ⟨h1, h2, h3, h4, h5⟩ := applyOp_config a op
    obtain ⟨g1, g2, g3, g4, g5⟩ := ih (applyOp a op)
    exact ⟨g1.trans h1, g2.trans h2, g3.trans h3, g4.trans h4, g5.trans h5⟩

/-- Claim C9: `invoke` performs no emptiness check on its message: for every
string, including `""`, the first provider call sends the prior state with a
user turn holding exactly that string appended, and the run's outcome does not
depend on the message at all (so it never raises on account of the message). -/
theorem C9_no_emptiness_check (a : Agent) (script : List RespMessage)
    (m m2 : String) :
    (a.invoke script m).requests.head? =
      some (mkRequest a (a.messages ++ [Turn.user m])) ∧
    (a.invoke script m).result = (a.invoke script m2).result := by
  constructor
  · rw [invoke_requests_eq, execute_requests_head]
    rfl
  · rw [invoke_result_eq, invoke_result_eq]
    exact execute_result_indep a script _ _

/-- Claim C5: a response whose tool-invocation field raises on access is
treated exactly like one with no tool requests: `execute` terminates, returns
that response's content unchanged (possibly empty), appends only that
response's turn, consumes only that response, and makes no further provider
call. -/
theorem C5_err_treated_as_no_tools (a : Agent) (rm : RespMessage)
    (rest : List RespMessage) (h : rm.tcField = TCField.err) :
    (execute a (rm :: rest)).result = Except.ok rm.content ∧
    (execute a (rm :: rest)).messages = a.messages ++ [Turn.assistantMsg rm] ∧
    (execute a (rm :: rest)).script = rest ∧
    (execute a (rm :: rest)).requests = [mkRequest a a.messages] := by
  simp [execute, h]

/-- Witness for C5 at a concrete malformed response with empty content. -/
theorem C5_err_treated_as_no_tools_witness :
    (execute cexAgent [exRErr]).result = Except.ok "" ∧
    (execute cexAgent [exRErr]).messages =
      cexAgent.messages ++ [Turn.assistantMsg exRErr] ∧
    (execute cexAgent [exRErr]).script = [] ∧
    (execute cexAgent [exRErr]).requests =
      [mkRequest cexAgent cexAgent.messages] :=
  C5_err_treated_as_no_tools cexAgent exRErr [] rfl

/-- Claim C4: a response with N tool requests that all dispatch successfully
appends exactly N tool-result turns, in request order, each tagged with the
matching invocation identifier and tool name, and the next provider call is
sent exactly the previous state extended by those N turns. -/
theorem C4_tool_results (a : Agent) (msgs : List Turn)
    (script : List RespMessage) (tcs : List ToolCall)
    (h : (runToolLoop a.available_tools tcs).2 = none) :
    ∃ outs : List String, outs.length = tcs.length ∧
      (runToolLoop a.available_tools tcs).1 =
        List.zipWith (fun tc out => Turn.toolResult tc.id tc.name out) tcs outs ∧
      (runToolLoop a.available_tools tcs).1.length = tcs.length ∧
      (runTools a msgs script tcs).requests.head? =
        some (mkRequest a (msgs ++ (runToolLoop a.available_tools tcs).1)) := by
  obtain ⟨outs, hl, ht⟩ := runToolLoop_ok_spec a.available_tools tcs h
  refine ⟨outs, hl, ht, ?_, runTools_requests_head a msgs script tcs h⟩
  rw [ht]
  simp [hl]

/-- Witness for C4 at the two-tool fixture. -/
theorem C4_tool_results_witness :
    ∃ outs : List String, outs.length = exTCs.length ∧
      (runToolLoop exAgent.available_tools exTCs).1 =
        List.zipWith (fun tc out => Turn.toolResult tc.id tc.name out)
          exTCs outs ∧
      (runToolLoop exAgent.available_tools exTCs).1.length = exTCs.length ∧
      (runTools exAgent [] [] exTCs).requests.head? =
        some (mkRequest exAgent
          ([] ++ (runToolLoop exAgent.available_tools exTCs).1)) :=
  C4_tool_results exAgent [] [] exTCs rfl

/-- Claim C1 counterexample: an `invoke` call that completes without error
although every provider response of the run carries a tool invocation request
(which is dispatched and fails, swallowed by the bare `except`): no
"final non-tool-requesting response" exists, yet a string — the content of the
tool-requesting response — is returned. -/
theorem C1_counterexample :
    (cexAgent.invoke cexScript "hi").result = Except.ok "halfway" ∧
    (∀ rm ∈ cexScript, ∃ t ts, rm.tcField = TCField.ok (some (t :: ts))) := by
  refine ⟨rfl, ?_⟩
  intro rm hrm
  simp only [cexScript, List.mem_singleton] at hrm
  subst hrm
  exact ⟨⟨"id1", "missing", "x"⟩, [], rfl⟩

/-- Claim C1 as amended: whenever `invoke` completes without error, the string
returned is the text content of the last provider response message appended to
the session state (which is the final non-tool-requesting response whenever no
tool dispatch failed); in particular, a first response carrying zero tool
invocation requests makes `invoke` return that response's text content
unchanged. -/
theorem C1_amended (a : Agent) (script : List RespMessage) (msg : String) :
    (∀ s, (a.invoke script msg).result = Except.ok s →
       lastRespContent (a.invoke script msg).postExec = some s) ∧
    (∀ rm rest, script = rm :: rest →
       rm.tcField = TCField.ok none ∨ rm.tcField = TCField.ok (some []) →
       (a.invoke script msg).result = Except.ok rm.content) := by
  constructor
  · intro s h
    rw [invoke_result_eq] at h
    rw [invoke_postExec_eq]
    exact execute_ok_lastRespContent _ script s h
  · intro rm rest hs h
    subst hs
    rw [invoke_result_eq]
    rcases h with h | h <;> simp [execute, h]

/-- Witness for C1 as amended: a single response with no tool requests. -/
theorem C1_amended_witness :
    lastRespContent (exAgent.invoke [exR2] "hi").postExec = some "done" ∧
    (exAgent.invoke [exR2] "hi").result = Except.ok exR2.content :=
  ⟨(C1_amended exAgent [exR2] "hi").1 "done" rfl,
   (C1_amended exAgent [exR2] "hi").2 exR2 [] rfl (Or.inl rfl)⟩

/-- Claim C2 counterexample: the provider requests a tool absent from the
registry; the lookup failure is swallowed by the bare `except Exception` in
`execute`, and `invoke` completes normally, returning the tool-requesting
response's text — the error does not propagate out of `invoke`. -/
theorem C2_counterexample :
    cexScript = [⟨"halfway", TCField.ok (some [⟨"id1", "missing", "x"⟩])⟩] ∧
    lookupTool cexAgent.available_tools "missing" = none ∧
    (cexAgent.invoke cexScript "hi").result = Except.ok "halfway" :=
  ⟨rfl, rfl, rfl⟩

/-- Claim C2 as amended: tool dispatch failures (unknown tool name or a
raising callable) never escape `invoke` — they are caught by the enclosing
bare `except Exception` handlers; the only exception that escapes `invoke` is
a failure of the initial provider call.  When the first response requests
tools and their dispatch fails, `invoke` completes, returning that response's
text content. -/
theorem C2_amended (a : Agent) (script : List RespMessage) (msg : String) :
    (∀ e, (a.invoke script msg).result = Except.error e →
       script = [] ∧ e = Err.providerUnavailable) ∧
    (∀ rm rest t ts e, script = rm :: rest →
       rm.tcField = TCField.ok (some (t :: ts)) →
       (runToolLoop a.available_tools (t :: ts)).2 = some e →
       (a.invoke script msg).result = Except.ok rm.content) := by
  constructor
  · intro e h
    rw [invoke_result_eq] at h
    exact execute_error_empty _ script e h
  · intro rm rest t ts e hs htc hloop
    subst hs
    rw [invoke_result_eq]
    have hre := runTools_loop_error
      { a with messages := a.messages ++ [Turn.user msg] }
      (a.messages ++ [Turn.user msg, Turn.assistantMsg rm]) rest
      (t :: ts) e hloop
    simp [execute, htc, hre]

/-- Witness for C2 as amended: the unknown-tool run completes with the
tool-requesting response's text. -/
theorem C2_amended_witness :
    (cexAgent.invoke cexScript "hi").result =
      Except.ok (RespMessage.content
        ⟨"halfway", TCField.ok (some [⟨"id1", "missing", "x"⟩])⟩) :=
  (C2_amended cexAgent cexScript "hi").2
    ⟨"halfway", TCField.ok (some [⟨"id1", "missing", "x"⟩])⟩ []
    ⟨"id1", "missing", "x"⟩ [] (Err.toolLookup "missing") rfl rfl rfl

/-- Claim C3: for every sequence of `invoke` calls on one agent that each
complete without error, the session state after each call is exactly the seed
(the single system turn if a system prompt was configured, else empty) —
no turn from a prior call is visible to a later one. -/
theorem C3_session_reset (a : Agent)
    (calls : List (List RespMessage × String))
    (h : ∀ p ∈ runCalls a calls, ∃ s, Prod.snd p = Except.ok s) :
    ∀ p ∈ runCalls a calls,
      (Prod.fst p).messages = seedMessages a.system_prompt := by
  induction calls generalizing a with
  | nil => intro p hp; simp [runCalls] at hp
  | cons c rest ih =>
    obtain ⟨s0, m0⟩ := c
    intro p hp
    simp only [runCalls, List.mem_cons] at hp
    rcases hp with hp | hp
    · subst hp
      obtain ⟨s, hs⟩ := h ((a.invoke s0 m0).final, (a.invoke s0 m0).result)
        (by simp [runCalls])
      exact invoke_ok_final_messages a s0 m0 s hs
    · have hsys := (invoke_config a s0 m0).2.2.2.2
      have := ih (a.invoke s0 m0).final
        (fun q hq => h q (by simp only [runCalls, List.mem_cons]; exact Or.inr hq))
        p hp
      rwa [hsys] at this

/-- Witness for C3: one successful call on the fixture agent ends in the
seeded state. -/
theorem C3_session_reset_witness :
    (exAgent.invoke [exR2] "hi").final.messages =
      seedMessages exAgent.system_prompt :=
  C3_session_reset exAgent [([exR2], "hi")]
    (by
      intro p hp
      cases hp with
      | head => exact ⟨"done", rfl⟩
      | tail _ hq => cases hq)
    ((exAgent.invoke [exR2] "hi").final, (exAgent.invoke [exR2] "hi").result)
    (List.Mem.head _)

/-- Claim C6 counterexample: in the 2-tool-then-0-tool run the returned text
is indeed round 2's content, but the state immediately before the final reset
is NOT the claimed six-turn list — `invoke` appends one more plain assistant
turn (duplicating round 2's content) before resetting, so the state has seven
turns. -/
theorem C6_counterexample :
    (exAgent.invoke [exR1, exR2] "go").result = Except.ok "done" ∧
    (exAgent.invoke [exR1, exR2] "go").preReset ≠
      some [Turn.system "sys", Turn.user "go", Turn.assistantMsg exR1,
        Turn.toolResult "1" "add" "3", Turn.toolResult "2" "mul" "6",
        Turn.assistantMsg exR2] ∧
    (exAgent.invoke [exR1, exR2] "go").preReset =
      some [Turn.system "sys", Turn.user "go", Turn.assistantMsg exR1,
        Turn.toolResult "1" "add" "3", Turn.toolResult "2" "mul" "6",
        Turn.assistantMsg exR2, Turn.assistantText "done"] := by
  refine ⟨rfl, ?_, rfl⟩
  decide

/-- Claim C6 as amended: when round 1 yields exactly two tool requests that
both dispatch successfully and round 2 yields none, the returned text is round
2's content, and the state immediately before the final reset is: the seed
(optional system turn), the user turn, the round-1 assistant turn, the two
tool-result turns in order, the round-2 assistant turn, and one further plain
assistant turn holding the returned text (appended by `invoke`). -/
theorem C6_amended (a : Agent) (msg : String) (r1 r2 : RespMessage)
    (t1 t2 : ToolCall) (f1 f2 : String → Except Unit String) (o1 o2 : String)
    (ha : a.messages = seedMessages a.system_prompt)
    (h1 : r1.tcField = TCField.ok (some [t1, t2]))
    (h2 : r2.tcField = TCField.ok none ∨ r2.tcField = TCField.ok (some []))
    (hl1 : lookupTool a.available_tools t1.name = some f1)
    (ho1 : f1 t1.arguments = Except.ok o1)
    (hl2 : lookupTool a.available_tools t2.name = some f2)
    (ho2 : f2 t2.arguments = Except.ok o2) :
    (a.invoke [r1, r2] msg).result = Except.ok r2.content ∧
    (a.invoke [r1, r2] msg).preReset =
      some (seedMessages a.system_prompt ++
        [Turn.user msg, Turn.assistantMsg r1,
         Turn.toolResult t1.id t1.name o1, Turn.toolResult t2.id t2.name o2,
         Turn.assistantMsg r2, Turn.assistantText r2.content]) := by
  have hloop : runToolLoop a.available_tools [t1, t2] =
      ([Turn.toolResult t1.id t1.name o1, Turn.toolResult t2.id t2.name o2],
        none) := by
    simp [runToolLoop, hl1, ho1, hl2, ho2]
  rcases h2 with h2 | h2 <;>
    simp [Agent.invoke, execute, runTools.eq_def, hloop, h1, h2, ha]

/-- Witness for C6 as amended at the concrete fixture. -/
theorem C6_amended_witness :
    (exAgent.invoke [exR1, exR2] "go").result = Except.ok exR2.content ∧
    (exAgent.invoke [exR1, exR2] "go").preReset =
      some (seedMessages exAgent.system_prompt ++
        [Turn.user "go", Turn.assistantMsg exR1,
         Turn.toolResult "1" "add" "3", Turn.toolResult "2" "mul" "6",
         Turn.assistantMsg exR2, Turn.assistantText exR2.content]) :=
  C6_amended exAgent "go" exR1 exR2 ⟨"1", "add", "x"⟩ ⟨"2", "mul", "y"⟩
    (fun _ => Except.ok "3") (fun _ => Except.ok "6") "3" "6"
    rfl rfl (Or.inl rfl) rfl rfl rfl rfl

/-- Claim C10: every provider call sends the configured model identifier, the
entire current session state in order (its message list is the full state as
of that call, a prefix of the final state — later steps only append), a fixed
temperature of 1/10, and includes the declared tool schema exactly when the
schema is nonempty. -/
theorem C10_request_shape (a : Agent) (script : List RespMessage)
    (msg : String) (req : ProviderRequest)
    (h : req ∈ (a.invoke script msg).requests) :
    req.model = a.model ∧ req.temperature = 1/10 ∧
    req.tools = (if a.tools.isEmpty then none else some a.tools) ∧
    req.messages <+: (a.invoke script msg).postExec := by
  rw [invoke_requests_eq] at h
  obtain ⟨h1, h2, h3, h4⟩ := execute_requests_spec _ script req h
  refine ⟨h1, h2, h3, ?_⟩
  rw [invoke_postExec_eq]
  exact h4

/-- Witness for C10 at the first request of a concrete run with a nonempty
schema. -/
theorem C10_request_shape_witness :
    (mkRequest exAgent [Turn.system "sys", Turn.user "hi"]).model =
      exAgent.model ∧
    (mkRequest exAgent [Turn.system "sys", Turn.user "hi"]).temperature =
      1/10 ∧
    (mkRequest exAgent [Turn.system "sys", Turn.user "hi"]).tools =
      (if exAgent.tools.isEmpty then none else some exAgent.tools) ∧
    (mkRequest exAgent [Turn.system "sys", Turn.user "hi"]).messages <+:
      (exAgent.invoke [exR2] "hi").postExec :=
  C10_request_shape exAgent [exR2] "hi"
    (mkRequest exAgent [Turn.system "sys", Turn.user "hi"]) (List.Mem.head _)

end AgentSpec
